import Mathlib

/-!
# Verification of the rtodo table component

Shallow embedding of the `rtodo` command-line todo manager
(`src/table/todo.rs`, `src/table.rs`, `src/lib.rs`).

* `Todo`, `TodoStatus` embed the record type of `src/table/todo.rs`;
  the Rust methods become pure functions returning the updated record.
* `Table` embeds the struct of `src/table.rs`; its `BTreeMap<usize, Todo>`
  field is modelled as a key-sorted association list `List (Nat × Todo)`,
  and `usize` as `Nat` (the counter is only ever incremented; overflow is
  unreachable at spec scale).
* Mutating methods become functions from the old table to the returned
  value paired with the new table.
* JSON serialization (serde derives + `serde_json`) is modelled at the
  level of a JSON syntax tree `Json`: struct fields by name, enum unit
  variants as their variant-name strings, and `usize` map keys as decimal
  strings, exactly as `serde_json` renders a `BTreeMap<usize, Todo>`.
-/

namespace Rtodo

/-- Status enumeration of `src/table/todo.rs` (`TodoStatus`). -/
inductive TodoStatus where
  | Unfinished : TodoStatus
  | Finished : TodoStatus
  | Forgave : TodoStatus
deriving DecidableEq, Repr

/-- The todo record of `src/table/todo.rs` (`struct Todo`). -/
structure Todo where
  title : String
  description : String
  status : TodoStatus
deriving DecidableEq, Repr

/-- `Todo::new`: fields from the arguments, status `Unfinished`. -/
def Todo.new (title description : String) : Todo :=
  { title := title, description := description, status := TodoStatus.Unfinished }

/-- `Todo::get_title` (returns a clone of the title). -/
def Todo.get_title (t : Todo) : String :=
  t.title

/-- `Todo::get_description`. -/
def Todo.get_description (t : Todo) : String :=
  t.description

/-- `Todo::get_status`. -/
def Todo.get_status (t : Todo) : TodoStatus :=
  t.status

/-- `Todo::modify_title`: unconditional overwrite of the title. -/
def Todo.modify_title (t : Todo) (title : String) : Todo :=
  { t with title := title }

/-- `Todo::modify_description`: unconditional overwrite of the description. -/
def Todo.modify_description (t : Todo) (desc : String) : Todo :=
  { t with description := desc }

/-- `Todo::finish`: sets status to `Finished`. -/
def Todo.finish (t : Todo) : Todo :=
  { t with status := TodoStatus.Finished }

/-- `Todo::forgive`: sets status to `Forgave`. -/
def Todo.forgive (t : Todo) : Todo :=
  { t with status := TodoStatus.Forgave }

/-- `Todo::unfinish`: sets status to `Unfinished`. -/
def Todo.unfinish (t : Todo) : Todo :=
  { t with status := TodoStatus.Unfinished }

/-- The status label used by `impl Display for Todo` and
`impl Display for TodoStatus` (`Forgave` renders as `"Abandoned"`). -/
def TodoStatus.label : TodoStatus → String
  | TodoStatus.Unfinished => "Unfinished"
  | TodoStatus.Finished => "Finished"
  | TodoStatus.Forgave => "Abandoned"

/-- `impl Display for Todo`: `[<StatusLabel>] <title> (<description>)`. -/
def Todo.display (t : Todo) : String :=
  "[" ++ t.status.label ++ "] " ++ t.title ++ " (" ++ t.description ++ ")"

/-! ## The `BTreeMap<usize, Todo>` model

A `BTreeMap` is modelled as an association list sorted strictly by key.
The operations below mirror the map operations the Rust code calls:
`insert` (replacing an existing key), `remove`, `get`/`get_mut`, and the
in-place update performed through a `get_mut` reference. -/

/-- `BTreeMap::insert`: place `(k, v)` at its sorted position, replacing an
entry with the same key. -/
def btreeInsert (k : Nat) (v : Todo) : List (Nat × Todo) → List (Nat × Todo)
  | [] => [(k, v)]
  | (k', v') :: rest =>
    if k < k' then (k, v) :: (k', v') :: rest
    else if k = k' then (k, v) :: rest
    else (k', v') :: btreeInsert k v rest

/-- `BTreeMap::get` / lookup side of `get_mut` and `remove`. -/
def btreeLookup (k : Nat) : List (Nat × Todo) → Option Todo
  | [] => none
  | (k', v') :: rest => if k = k' then some v' else btreeLookup k rest

/-- Structure change of `BTreeMap::remove`: drop the entry with key `k`. -/
def btreeErase (k : Nat) : List (Nat × Todo) → List (Nat × Todo)
  | [] => []
  | (k', v') :: rest => if k = k' then rest else (k', v') :: btreeErase k rest

/-- In-place update of the value stored at key `k`, as performed through a
`get_mut` reference. -/
def btreeModify (k : Nat) (f : Todo → Todo) : List (Nat × Todo) → List (Nat × Todo)
  | [] => []
  | (k', v') :: rest => if k = k' then (k', f v') :: rest else (k', v') :: btreeModify k f rest

/-- The todo table of `src/table.rs` (`struct Table`). -/
structure Table where
  todos : List (Nat × Todo)
  next_id : Nat
deriving DecidableEq, Repr

/-- `Table::new`: empty map, `next_id = 0`. -/
def Table.new : Table :=
  { todos := [], next_id := 0 }

/-- `Table::add_todo`: insert at key `next_id`, increment `next_id`, return
`next_id - 1` (the id just used) together with the updated table. -/
def Table.add_todo (t : Table) (todo : Todo) : Nat × Table :=
  let todos := btreeInsert t.next_id todo t.todos
  let next_id := t.next_id + 1
  (next_id - 1, { todos := todos, next_id := next_id })

/-- `Table::remove_todo_by_id`: `self.todos.remove(&id)` — the removed value
(if any) together with the updated table. -/
def Table.remove_todo_by_id (t : Table) (id : Nat) : Option Todo × Table :=
  (btreeLookup id t.todos, { todos := btreeErase id t.todos, next_id := t.next_id })

/-- `Table::modify_todo_by_id`: on a present id, `modify_title` then
`modify_description` through the `get_mut` reference and return `Ok` with the
updated record; otherwise `Err("Todo not found")` and no change. -/
def Table.modify_todo_by_id (t : Table) (id : Nat) (new_todo : Todo) :
    Except String Todo × Table :=
  match btreeLookup id t.todos with
  | some todo =>
    let todo2 := (todo.modify_title new_todo.title).modify_description new_todo.description
    (Except.ok todo2, { todos := btreeModify id (fun _ => todo2) t.todos, next_id := t.next_id })
  | none => (Except.error "Todo not found", t)

/-- `Table::get_todo_by_id`: lookup (value read through the returned
reference). -/
def Table.get_todo_by_id (t : Table) (id : Nat) : Option Todo :=
  btreeLookup id t.todos

/-- Mutation performed through the `&mut Todo` returned by
`Table::get_todo_by_id` (as the `finish`/`forgive` commands do): apply `f` to
the stored record when the id is present, otherwise leave the table alone. -/
def Table.get_todo_apply (t : Table) (id : Nat) (f : Todo → Todo) : Table :=
  match btreeLookup id t.todos with
  | some _ => { todos := btreeModify id f t.todos, next_id := t.next_id }
  | none => t

/-! ## Display rendering of the table

`impl Display for Table` writes, for an empty table, the single line
`"ðŸ“ Todo list is empty"`, and otherwise a header line `"ðŸ“ Todo list:"`
followed by one line `"{:>3}. {}"` per entry (id right-aligned to width 3).
The glyph `ðŸ“` is the exact character sequence present in `src/table.rs`. -/

/-- Decimal rendering of a `usize`/`Nat` (as `Display`/`serde_json` render
map keys): most-significant digit first, `0` for zero. -/
def natRepr (n : Nat) : String :=
  if n = 0 then "0" else String.mk ((Nat.digits 10 n).reverse.map Nat.digitChar)

/-- Rust's `{:>3}` format: right-align in a field of width 3, space-padded. -/
def padLeft3 (s : String) : String :=
  if s.length < 3 then String.mk (List.replicate (3 - s.length) ' ') ++ s else s

/-- One rendered entry line of `impl Display for Table`:
`"{:>3}. {todo}"` plus the `writeln!` newline. -/
def entryLine (p : Nat × Todo) : String :=
  padLeft3 (natRepr p.1) ++ ". " ++ p.2.display ++ "\n"

/-- `impl Display for Table`. -/
def Table.display (t : Table) : String :=
  if t.todos.isEmpty then "ðŸ“ Todo list is empty\n"
  else "ðŸ“ Todo list:\n" ++ String.join (t.todos.map entryLine)

/-! ## JSON serialization

The serde derives on `Table`, `Todo` and `TodoStatus` together with
`serde_json` are modelled on a JSON syntax tree: only strings, numbers and
objects occur in this schema. -/

/-- JSON values (the fragment this schema uses). -/
inductive Json where
  | str : String → Json
  | num : Nat → Json
  | obj : List (String × Json) → Json

/-- Serde encoding of `TodoStatus`: unit variants as variant-name strings. -/
def TodoStatus.toJson : TodoStatus → Json
  | TodoStatus.Unfinished => Json.str "Unfinished"
  | TodoStatus.Finished => Json.str "Finished"
  | TodoStatus.Forgave => Json.str "Forgave"

/-- Serde decoding of `TodoStatus`. -/
def TodoStatus.fromJson : Json → Option TodoStatus
  | Json.str s =>
    if s = "Unfinished" then some TodoStatus.Unfinished
    else if s = "Finished" then some TodoStatus.Finished
    else if s = "Forgave" then some TodoStatus.Forgave
    else none
  | _ => none

/-- Serde encoding of `Todo`: an object with the three field names. -/
def Todo.toJson (t : Todo) : Json :=
  Json.obj [("title", Json.str t.title), ("description", Json.str t.description),
    ("status", t.status.toJson)]

/-- Serde decoding of `Todo`: fields looked up by name. -/
def Todo.fromJson : Json → Option Todo
  | Json.obj fields =>
    match fields.lookup "title", fields.lookup "description", fields.lookup "status" with
    | some (Json.str title), some (Json.str description), some s =>
      (TodoStatus.fromJson s).map fun status =>
        { title := title, description := description, status := status }
    | _, _, _ => none
  | _ => none

/-- Decimal-digit value of a character, `none` for a non-digit. -/
def digitVal (c : Char) : Option Nat :=
  if 48 ≤ c.toNat ∧ c.toNat ≤ 57 then some (c.toNat - 48) else none

/-- Left-to-right decimal accumulation. -/
def parseNatAux : List Char → Nat → Option Nat
  | [], acc => some acc
  | c :: cs, acc =>
    match digitVal c with
    | some d => parseNatAux cs (10 * acc + d)
    | none => none

/-- Decoding of a `usize` map key from its decimal string. -/
def parseNatKey (s : String) : Option Nat :=
  if s.data.isEmpty then none else parseNatAux s.data 0

/-- Serde encoding of the `BTreeMap<usize, Todo>` field: a JSON object whose
keys are the decimal renderings of the ids. -/
def encodeEntries (l : List (Nat × Todo)) : List (String × Json) :=
  l.map fun p => (natRepr p.1, p.2.toJson)

/-- Serde decoding of the map field: parse each key, decode each value. -/
def decodeEntries : List (String × Json) → Option (List (Nat × Todo))
  | [] => some []
  | (k, v) :: rest =>
    match parseNatKey k, Todo.fromJson v, decodeEntries rest with
    | some id, some todo, some tail => some ((id, todo) :: tail)
    | _, _, _ => none

/-- Serde encoding of `Table`. -/
def Table.toJson (t : Table) : Json :=
  Json.obj [("todos", Json.obj (encodeEntries t.todos)), ("next_id", Json.num t.next_id)]

/-- Serde decoding of `Table` (what `serde_json::from_reader` produces). -/
def Table.fromJson : Json → Option Table
  | Json.obj fields =>
    match fields.lookup "todos", fields.lookup "next_id" with
    | some (Json.obj entries), some (Json.num n) =>
      (decodeEntries entries).map fun todos => { todos := todos, next_id := n }
    | _, _ => none
  | _ => none

/-- `Table::serialize`: `serde_json::to_string_pretty` never fails on this
schema (string-keyed objects only), so the result is always `Some`. -/
def Table.serialize (t : Table) : Option Json :=
  some t.toJson

/-- `init_table` of `src/lib.rs`. The argument is the outcome of opening and
parsing `todo.json`: `none` when `File::open` fails (missing file), `some j`
for the parsed JSON text. A `none` result models the `.unwrap()` panic on a
file whose contents do not decode to a `Table`. -/
def init_table (file : Option Json) : Option Table :=
  match file with
  | some j => Table.fromJson j
  | none => some Table.new

/-! ## Operation traces

For the lifetime invariants, the table operations are packaged as a trace of
operations run from `Table::new`. `getById` carries the mutation a caller
performs through the returned `&mut Todo` reference. -/

/-- One table operation. -/
inductive Op where
  | add : Todo → Op
  | removeById : Nat → Op
  | modifyById : Nat → Todo → Op
  | getById : Nat → (Todo → Todo) → Op

/-- Effect of one operation on the table. -/
def applyOp (t : Table) : Op → Table
  | Op.add todo => (t.add_todo todo).2
  | Op.removeById id => (t.remove_todo_by_id id).2
  | Op.modifyById id new_todo => (t.modify_todo_by_id id new_todo).2
  | Op.getById id f => t.get_todo_apply id f

/-- Table reached by running a trace from `Table::new`. -/
def runOps (ops : List Op) : Table :=
  ops.foldl applyOp Table.new

/-- Identifiers returned by the `add_todo` calls of a trace, in call order,
starting from table `t`. -/
def issuedFrom (t : Table) : List Op → List Nat
  | [] => []
  | Op.add todo :: rest => (t.add_todo todo).1 :: issuedFrom (t.add_todo todo).2 rest
  | op :: rest => issuedFrom (applyOp t op) rest

/-- Identifiers issued over a whole trace from `Table::new`. -/
def issuedIds (ops : List Op) : List Nat :=
  issuedFrom Table.new ops

/-! ## Lemmas about the map model -/

theorem btreeLookup_insert_self (k : Nat) (v : Todo) (l : List (Nat × Todo)) :
    btreeLookup k (btreeInsert k v l) = some v := by
  induction l with
  | nil => simp [btreeInsert, btreeLookup]
  | cons hd tl ih =>
    obtain ⟨k', v'⟩ := hd
    by_cases h1 : k < k'
    · simp [btreeInsert, h1, btreeLookup]
    · by_cases h2 : k = k'
      · simp [btreeInsert, h1, h2, btreeLookup]
      · simp [btreeInsert, h1, h2, btreeLookup, ih]

theorem btreeLookup_modify_self (k : Nat) (f : Todo → Todo) (l : List (Nat × Todo)) :
    btreeLookup k (btreeModify k f l) = (btreeLookup k l).map f := by
  induction l with
  | nil => simp [btreeModify, btreeLookup]
  | cons hd tl ih =>
    obtain ⟨k', v'⟩ := hd
    by_cases h : k = k'
    · simp [btreeModify, h, btreeLookup]
    · simp [btreeModify, h, btreeLookup, ih]

theorem btreeLookup_modify_ne (k id : Nat) (h : k ≠ id) (f : Todo → Todo)
    (l : List (Nat × Todo)) :
    btreeLookup k (btreeModify id f l) = btreeLookup k l := by
  induction l with
  | nil => simp [btreeModify, btreeLookup]
  | cons hd tl ih =>
    obtain ⟨k', v'⟩ := hd
    by_cases h1 : id = k'
    · subst h1
      simp [btreeModify, btreeLookup, h, ih]
    · by_cases h2 : k = k'
      · simp [btreeModify, btreeLookup, h1, h2]
      · simp [btreeModify, btreeLookup, h1, h2, ih]

theorem btreeModify_not_found (id : Nat) (f : Todo → Todo) (l : List (Nat × Todo))
    (h : btreeLookup id l = none) : btreeModify id f l = l := by
  induction l with
  | nil => rfl
  | cons hd tl ih =>
    obtain ⟨k', v'⟩ := hd
    by_cases h1 : id = k'
    · simp [btreeLookup, h1] at h
    · simp [btreeLookup, h1] at h
      simp [btreeModify, h1, ih h]

theorem btreeErase_not_found (id : Nat) (l : List (Nat × Todo))
    (h : btreeLookup id l = none) : btreeErase id l = l := by
  induction l with
  | nil => rfl
  | cons hd tl ih =>
    obtain ⟨k', v'⟩ := hd
    by_cases h1 : id = k'
    · simp [btreeLookup, h1] at h
    · simp [btreeLookup, h1] at h
      simp [btreeErase, h1, ih h]

theorem filter_keys_not_mem (id : Nat) (l : List (Nat × Todo))
    (h : id ∉ l.map Prod.fst) : l.filter (fun p => p.1 != id) = l := by
  induction l with
  | nil => rfl
  | cons hd tl ih =>
    obtain ⟨k', v'⟩ := hd
    simp only [List.map_cons, List.mem_cons] at h
    push_neg at h
    obtain ⟨h1, h2⟩ := h
    have hne : (k' != id) = true := by simp [bne]; omega
    simp [List.filter, hne, ih h2]

theorem btreeErase_eq_filter (id : Nat) (l : List (Nat × Todo))
    (hnd : (l.map Prod.fst).Nodup) :
    btreeErase id l = l.filter (fun p => p.1 != id) := by
  induction l with
  | nil => rfl
  | cons hd tl ih =>
    obtain ⟨k', v'⟩ := hd
    simp only [List.map_cons, List.nodup_cons] at hnd
    obtain ⟨hk, hnd'⟩ := hnd
    by_cases h1 : id = k'
    · subst h1
      have hft := filter_keys_not_mem id tl hk
      simp only [bne] at hft
      simp [btreeErase, List.filter, bne, hft]
    · have hne : (k' != id) = true := by simp [bne]; omega
      simp [btreeErase, h1, List.filter, hne, ih hnd']

/-! ## C1, C3, C5, C6, C10 -/

theorem issuedFrom_adds (ts : List Todo) :
    ∀ t : Table, issuedFrom t (ts.map Op.add) = List.range' t.next_id ts.length := by
  induction ts with
  | nil => intro t; rfl
  | cons hd tl ih =>
    intro t
    simp only [List.map_cons, issuedFrom, List.length_cons, List.range'_succ]
    have h1 : (t.add_todo hd).1 = t.next_id := by simp [Table.add_todo]
    have h2 := ih (t.add_todo hd).2
    rw [h1, h2]
    simp [Table.add_todo]

/-- C1: `add_todo` inserts the todo under id `next_id`, increments `next_id`
by one, returns the assigned id, and never fails (it is a total function);
over any sequence of adds on a fresh table the returned ids are exactly
`0, 1, 2, …`. -/
theorem c1_add_todo_spec :
    (∀ (t : Table) (todo : Todo),
      (t.add_todo todo).1 = t.next_id ∧
      (t.add_todo todo).2.next_id = t.next_id + 1 ∧
      btreeLookup t.next_id (t.add_todo todo).2.todos = some todo) ∧
    (∀ ts : List Todo, issuedIds (ts.map Op.add) = List.range ts.length) := by
  constructor
  · intro t todo
    refine ⟨by simp [Table.add_todo], by simp [Table.add_todo], ?_⟩
    simp [Table.add_todo, btreeLookup_insert_self]
  · intro ts
    rw [issuedIds, issuedFrom_adds ts Table.new, List.range_eq_range']
    rfl

/-- C3: `modify_todo_by_id` on a present id overwrites exactly title and
description, preserves the status, leaves every other entry and `next_id`
unchanged, and returns `Ok`; on an absent id it returns
`Err("Todo not found")` and leaves the whole table unchanged. -/
theorem c3_modify_by_id_spec :
    ∀ (t : Table) (id : Nat) (nt : Todo),
      (∀ v, btreeLookup id t.todos = some v →
        (t.modify_todo_by_id id nt).1 =
          Except.ok { title := nt.title, description := nt.description, status := v.status } ∧
        (t.modify_todo_by_id id nt).2.next_id = t.next_id ∧
        btreeLookup id (t.modify_todo_by_id id nt).2.todos =
          some { title := nt.title, description := nt.description, status := v.status } ∧
        (∀ k, k ≠ id → btreeLookup k (t.modify_todo_by_id id nt).2.todos =
          btreeLookup k t.todos)) ∧
      (btreeLookup id t.todos = none →
        (t.modify_todo_by_id id nt).1 = Except.error "Todo not found" ∧
        (t.modify_todo_by_id id nt).2 = t) := by
  intro t id nt
  constructor
  · intro v hv
    refine ⟨?_, ?_, ?_, ?_⟩
    · simp [Table.modify_todo_by_id, hv, Todo.modify_title, Todo.modify_description]
    · simp [Table.modify_todo_by_id, hv]
    · simp [Table.modify_todo_by_id, hv, btreeLookup_modify_self,
        Todo.modify_title, Todo.modify_description]
    · intro k hk
      simp [Table.modify_todo_by_id, hv, btreeLookup_modify_ne k id hk]
  · intro hv
    constructor
    · simp [Table.modify_todo_by_id, hv]
    · simp [Table.modify_todo_by_id, hv]

/-- Witness for C3 at a concrete table: id 0 present, id 5 absent. -/
theorem c3_modify_by_id_witness :
    (((Table.new.add_todo (Todo.new "a" "b")).2.modify_todo_by_id 0 (Todo.new "x" "y")).1 =
      Except.ok { title := "x", description := "y", status := TodoStatus.Unfinished } ∧
     ((Table.new.add_todo (Todo.new "a" "b")).2.modify_todo_by_id 5 (Todo.new "x" "y")).1 =
      Except.error "Todo not found") := by
  constructor
  · exact (((c3_modify_by_id_spec (Table.new.add_todo (Todo.new "a" "b")).2 0
      (Todo.new "x" "y")).1 (Todo.new "a" "b") (by rfl)).1)
  · exact ((c3_modify_by_id_spec (Table.new.add_todo (Todo.new "a" "b")).2 5
      (Todo.new "x" "y")).2 (by rfl)).1

/-- C5: `finish`/`forgive`/`unfinish` unconditionally overwrite the status,
are idempotent, and `finish` then `unfinish` then `forgive` ends in the
abandoned state (`Forgave`, displayed as `"Abandoned"`). -/
theorem c5_status_transitions :
    ∀ t : Todo,
      (t.finish.status = TodoStatus.Finished ∧
       t.forgive.status = TodoStatus.Forgave ∧
       t.unfinish.status = TodoStatus.Unfinished) ∧
      (t.finish.finish = t.finish ∧
       t.forgive.forgive = t.forgive ∧
       t.unfinish.unfinish = t.unfinish) ∧
      (t.finish.unfinish.forgive.status = TodoStatus.Forgave ∧
       TodoStatus.label TodoStatus.Forgave = "Abandoned") := by
  intro t
  exact ⟨⟨rfl, rfl, rfl⟩, ⟨rfl, rfl, rfl⟩, ⟨rfl, rfl⟩⟩

/-- C6: `Todo::new` always succeeds (total function), copies title and
description from its arguments, and starts in status `Unfinished`. -/
theorem c6_todo_new_spec :
    ∀ title description : String,
      (Todo.new title description).title = title ∧
      (Todo.new title description).description = description ∧
      (Todo.new title description).get_status = TodoStatus.Unfinished := by
  intro title description
  exact ⟨rfl, rfl, rfl⟩

/-- C10: `modify_todo_by_id` ignores the status of its `new_todo` argument:
two arguments agreeing on title and description yield identical results and
identical resulting tables. -/
theorem c10_modify_ignores_status :
    ∀ (t : Table) (id : Nat) (nt1 nt2 : Todo),
      nt1.title = nt2.title → nt1.description = nt2.description →
      t.modify_todo_by_id id nt1 = t.modify_todo_by_id id nt2 := by
  intro t id nt1 nt2 ht hd
  simp only [Table.modify_todo_by_id, ht, hd]

/-- Witness for C10: same title/description, different statuses. -/
theorem c10_modify_ignores_status_witness :
    (Table.new.add_todo (Todo.new "a" "b")).2.modify_todo_by_id 0
        { title := "x", description := "y", status := TodoStatus.Unfinished } =
      (Table.new.add_todo (Todo.new "a" "b")).2.modify_todo_by_id 0
        { title := "x", description := "y", status := TodoStatus.Finished } :=
  c10_modify_ignores_status (Table.new.add_todo (Todo.new "a" "b")).2 0 _ _ rfl rfl

/-! ## C4: remove_todo_by_id -/

/-- C4: `remove_todo_by_id` on an absent id returns `None` and changes
nothing; on a present id it returns the stored record and removes exactly
that entry, keeping every other entry and `next_id` unchanged. -/
theorem c4_remove_by_id_spec :
    ∀ (t : Table) (id : Nat),
      (btreeLookup id t.todos = none → t.remove_todo_by_id id = (none, t)) ∧
      (∀ v, btreeLookup id t.todos = some v → (t.todos.map Prod.fst).Nodup →
        (t.remove_todo_by_id id).1 = some v ∧
        (t.remove_todo_by_id id).2.next_id = t.next_id ∧
        (t.remove_todo_by_id id).2.todos = t.todos.filter (fun p => p.1 != id)) := by
  intro t id
  constructor
  · intro h
    simp [Table.remove_todo_by_id, h, btreeErase_not_found id t.todos h]
  · intro v hv hnd
    refine ⟨by simp [Table.remove_todo_by_id, hv], rfl, ?_⟩
    simp [Table.remove_todo_by_id, btreeErase_eq_filter id t.todos hnd]

/-- Witness for C4: two-entry table, present id 1 and absent id 5. -/
theorem c4_remove_by_id_witness :
    (((Table.new.add_todo (Todo.new "a" "b")).2.add_todo (Todo.new "c" "d")).2.remove_todo_by_id 1).1 =
      some (Todo.new "c" "d") ∧
    ((Table.new.add_todo (Todo.new "a" "b")).2.remove_todo_by_id 5) =
      (none, (Table.new.add_todo (Todo.new "a" "b")).2) := by
  constructor
  · exact ((c4_remove_by_id_spec ((Table.new.add_todo (Todo.new "a" "b")).2.add_todo
      (Todo.new "c" "d")).2 1).2 (Todo.new "c" "d") (by rfl) (by decide)).1
  · exact (c4_remove_by_id_spec (Table.new.add_todo (Todo.new "a" "b")).2 5).1 (by rfl)

/-! ## C2: identifier freshness over whole lifetimes -/

theorem next_id_mono_op (t : Table) (op : Op) : t.next_id ≤ (applyOp t op).next_id := by
  cases op with
  | add todo => simp [applyOp, Table.add_todo]
  | removeById id => simp [applyOp, Table.remove_todo_by_id]
  | modifyById id nt =>
    simp only [applyOp, Table.modify_todo_by_id]
    cases btreeLookup id t.todos <;> simp
  | getById id f =>
    simp only [applyOp, Table.get_todo_apply]
    cases btreeLookup id t.todos <;> simp

theorem next_id_mono_foldl (t : Table) (ops : List Op) :
    t.next_id ≤ (ops.foldl applyOp t).next_id := by
  induction ops generalizing t with
  | nil => simp
  | cons op rest ih =>
    calc t.next_id ≤ (applyOp t op).next_id := next_id_mono_op t op
      _ ≤ _ := ih (applyOp t op)

theorem issuedFrom_bounds (ops : List Op) :
    ∀ t, ∀ i ∈ issuedFrom t ops, t.next_id ≤ i ∧ i < (ops.foldl applyOp t).next_id := by
  induction ops with
  | nil => intro t i hi; simp [issuedFrom] at hi
  | cons op rest ih =>
    intro t i hi
    cases op with
    | add todo =>
      simp only [issuedFrom, List.mem_cons] at hi
      have h1 : (t.add_todo todo).1 = t.next_id := by simp [Table.add_todo]
      have h2 : (t.add_todo todo).2.next_id = t.next_id + 1 := by simp [Table.add_todo]
      have hfold : (Op.add todo :: rest).foldl applyOp t = rest.foldl applyOp (t.add_todo todo).2 := rfl
      rcases hi with hi | hi
      · subst hi
        rw [h1, hfold]
        have := next_id_mono_foldl (t.add_todo todo).2 rest
        omega
      · have := ih (t.add_todo todo).2 i hi
        rw [hfold]
        omega
    | removeById id =>
      have := ih (applyOp t (Op.removeById id)) i (by simpa [issuedFrom] using hi)
      have hm := next_id_mono_op t (Op.removeById id)
      exact ⟨le_trans hm this.1, this.2⟩
    | modifyById id nt =>
      have := ih (applyOp t (Op.modifyById id nt)) i (by simpa [issuedFrom] using hi)
      have hm := next_id_mono_op t (Op.modifyById id nt)
      exact ⟨le_trans hm this.1, this.2⟩
    | getById id f =>
      have := ih (applyOp t (Op.getById id f)) i (by simpa [issuedFrom] using hi)
      have hm := next_id_mono_op t (Op.getById id f)
      exact ⟨le_trans hm this.1, this.2⟩

theorem issuedFrom_pairwise (ops : List Op) :
    ∀ t, (issuedFrom t ops).Pairwise (· < ·) := by
  induction ops with
  | nil => intro t; simp [issuedFrom]
  | cons op rest ih =>
    intro t
    cases op with
    | add todo =>
      simp only [issuedFrom]
      refine List.Pairwise.cons ?_ (ih _)
      intro i hi
      have hb := (issuedFrom_bounds rest (t.add_todo todo).2 i hi).1
      have h1 : (t.add_todo todo).1 = t.next_id := by simp [Table.add_todo]
      have h2 : (t.add_todo todo).2.next_id = t.next_id + 1 := by simp [Table.add_todo]
      omega
    | removeById id => simpa [issuedFrom] using ih (applyOp t (Op.removeById id))
    | modifyById id nt => simpa [issuedFrom] using ih (applyOp t (Op.modifyById id nt))
    | getById id f => simpa [issuedFrom] using ih (applyOp t (Op.getById id f))

/-- C2: over any trace of table operations from `Table::new`, `next_id`
strictly exceeds every identifier ever issued, `next_id` never decreases
under any further operation, and the issued identifiers are strictly
increasing — so no identifier is ever reused, removals included. -/
theorem c2_next_id_invariant :
    ∀ ops : List Op,
      (∀ i ∈ issuedIds ops, i < (runOps ops).next_id) ∧
      (issuedIds ops).Pairwise (· < ·) ∧
      (∀ op : Op, (runOps ops).next_id ≤ (applyOp (runOps ops) op).next_id) := by
  intro ops
  refine ⟨?_, issuedFrom_pairwise ops Table.new, fun op => next_id_mono_op _ op⟩
  intro i hi
  exact (issuedFrom_bounds ops Table.new i hi).2

/-- Witness for C2: add, remove id 0, add again — the second add is issued
the fresh id 1, below `next_id = 2`. -/
theorem c2_next_id_invariant_witness :
    issuedIds [Op.add (Todo.new "a" "b"), Op.removeById 0, Op.add (Todo.new "c" "d")] = [0, 1] ∧
    1 < (runOps [Op.add (Todo.new "a" "b"), Op.removeById 0, Op.add (Todo.new "c" "d")]).next_id := by
  refine ⟨by decide, ?_⟩
  exact (c2_next_id_invariant
    [Op.add (Todo.new "a" "b"), Op.removeById 0, Op.add (Todo.new "c" "d")]).1 1 (by decide)

/-! ## C7: serialization round trip -/

theorem digitVal_digitChar (d : Nat) (h : d < 10) :
    digitVal (Nat.digitChar d) = some d := by
  interval_cases d <;> decide

theorem parseNatAux_map_digitChar (ds : List Nat) :
    ∀ acc, (∀ d ∈ ds, d < 10) →
      parseNatAux (ds.map Nat.digitChar) acc =
        some (ds.foldl (fun a d => 10 * a + d) acc) := by
  induction ds with
  | nil => intro acc _; rfl
  | cons d tl ih =>
    intro acc h
    have hd : d < 10 := h d (by simp)
    simp only [List.map_cons, parseNatAux, digitVal_digitChar d hd, List.foldl_cons]
    exact ih (10 * acc + d) (fun x hx => h x (by simp [hx]))

theorem foldr_digits_eq_ofDigits (ds : List Nat) :
    ds.foldr (fun d a => 10 * a + d) 0 = Nat.ofDigits 10 ds := by
  induction ds with
  | nil => simp [Nat.ofDigits]
  | cons d tl ih =>
    simp only [List.foldr_cons, Nat.ofDigits_cons, ih]
    ring

theorem foldl_reverse_digits (ds : List Nat) :
    (ds.reverse).foldl (fun a d => 10 * a + d) 0 = Nat.ofDigits 10 ds := by
  rw [List.foldl_reverse]
  exact foldr_digits_eq_ofDigits ds

theorem parseNatKey_natRepr (n : Nat) : parseNatKey (natRepr n) = some n := by
  by_cases h : n = 0
  · subst h; decide
  · have hne : Nat.digits 10 n ≠ [] := Nat.digits_ne_nil_iff_ne_zero.mpr h
    have hlt : ∀ d ∈ (Nat.digits 10 n).reverse, d < 10 := by
      intro d hd
      exact Nat.digits_lt_base (by norm_num) (List.mem_reverse.mp hd)
    have hdata : (String.mk ((Nat.digits 10 n).reverse.map Nat.digitChar)).data
        = (Nat.digits 10 n).reverse.map Nat.digitChar := rfl
    have hnonempty : (((Nat.digits 10 n).reverse.map Nat.digitChar).isEmpty) = false := by
      simpa using hne
    rw [natRepr, if_neg h, parseNatKey, hdata, hnonempty]
    simp only [Bool.false_eq_true, if_false]
    rw [parseNatAux_map_digitChar _ 0 hlt, foldl_reverse_digits, Nat.ofDigits_digits]

theorem todo_fromJson_toJson (t : Todo) : Todo.fromJson t.toJson = some t := by
  obtain ⟨title, description, status⟩ := t
  cases status <;> rfl

theorem decodeEntries_encodeEntries (l : List (Nat × Todo)) :
    decodeEntries (encodeEntries l) = some l := by
  induction l with
  | nil => rfl
  | cons hd tl ih =>
    obtain ⟨k, v⟩ := hd
    simp only [encodeEntries, List.map_cons] at ih ⊢
    simp only [decodeEntries, parseNatKey_natRepr k, todo_fromJson_toJson v, ih]

/-- C7: serializing any table succeeds, and deserializing the result gives
back a table equal to the original — same entries (ids, titles,
descriptions, statuses) and same `next_id`. -/
theorem c7_serialize_roundtrip :
    ∀ t : Table,
      t.serialize = some t.toJson ∧ Table.fromJson t.toJson = some t := by
  intro t
  refine ⟨rfl, ?_⟩
  obtain ⟨todos, n⟩ := t
  simp [Table.toJson, Table.fromJson, List.lookup, decodeEntries_encodeEntries]

/-! ## C8: loading at process start -/

/-- Counterexample to C8 as stated: a present-but-unparseable file does not
fall back to a fresh empty table — `init_table` hits the `.unwrap()` panic
(modelled as `none`). -/
theorem c8_init_table_counterexample :
    init_table (some (Json.num 42)) = none ∧
    init_table (some (Json.num 42)) ≠ some Table.new := by
  exact ⟨rfl, by decide⟩

/-- C8 amended: a missing file yields a fresh empty table; a present file
decodes to the table it holds when parseable, and makes `init_table` panic
(the `.unwrap()` of `src/lib.rs`) when not. -/
theorem c8_init_table_spec :
    init_table none = some Table.new ∧
    (∀ j : Json, Table.fromJson j = none → init_table (some j) = none) ∧
    (∀ (j : Json) (t : Table), Table.fromJson j = some t → init_table (some j) = some t) := by
  refine ⟨rfl, ?_, ?_⟩
  · intro j hj
    simpa [init_table] using hj
  · intro j t hj
    simpa [init_table] using hj

/-- Witness for C8 (amended): a string at top level is unparseable as a
`Table`, and a serialized one-entry table parses back. -/
theorem c8_init_table_witness :
    init_table (some (Json.str "garbage")) = none ∧
    init_table (some (Table.toJson (Table.new.add_todo (Todo.new "a" "b")).2)) =
      some (Table.new.add_todo (Todo.new "a" "b")).2 := by
  constructor
  · exact c8_init_table_spec.2.1 (Json.str "garbage") rfl
  · exact c8_init_table_spec.2.2 _ _ (by decide)

/-! ## C9: list rendering

The `BTreeMap` representation invariant — keys strictly ascending — is
preserved by every operation, so every reachable table renders its entries
in ascending id order. -/

theorem mem_btreeInsert (k : Nat) (v : Todo) (l : List (Nat × Todo)) (p : Nat × Todo)
    (h : p ∈ btreeInsert k v l) : p ∈ l ∨ p = (k, v) := by
  induction l with
  | nil => simpa [btreeInsert] using h
  | cons hd tl ih =>
    obtain ⟨k', v'⟩ := hd
    by_cases h1 : k < k'
    · simp only [btreeInsert, if_pos h1, List.mem_cons] at h
      simp only [List.mem_cons]
      tauto
    · by_cases h2 : k = k'
      · simp only [btreeInsert, if_neg h1, if_pos h2, List.mem_cons] at h
        simp only [List.mem_cons]
        tauto
      · simp only [btreeInsert, if_neg h1, if_neg h2, List.mem_cons] at h
        simp only [List.mem_cons]
        rcases h with h | h
        · tauto
        · rcases ih h with h | h <;> tauto

theorem pairwise_btreeInsert (k : Nat) (v : Todo) (l : List (Nat × Todo))
    (h : ((l.map Prod.fst)).Pairwise (· < ·)) :
    (((btreeInsert k v l).map Prod.fst)).Pairwise (· < ·) := by
  induction l with
  | nil => simp [btreeInsert]
  | cons hd tl ih =>
    obtain ⟨k', v'⟩ := hd
    simp only [List.map_cons, List.pairwise_cons] at h
    obtain ⟨h1, h2⟩ := h
    by_cases hk1 : k < k'
    · simp only [btreeInsert, if_pos hk1, List.map_cons, List.pairwise_cons]
      refine ⟨?_, ⟨h1, h2⟩⟩
      intro x hx
      simp only [List.mem_cons] at hx
      rcases hx with rfl | hx
      · exact hk1
      · exact lt_trans hk1 (h1 x hx)
    · by_cases hk2 : k = k'
      · subst hk2
        have hins : btreeInsert k v ((k, v') :: tl) = (k, v) :: tl := by
          simp [btreeInsert, hk1]
        rw [hins]
        simp only [List.map_cons, List.pairwise_cons]
        exact ⟨h1, h2⟩
      · have hk3 : k' < k := by omega
        simp only [btreeInsert, if_neg hk1, if_neg hk2, List.map_cons, List.pairwise_cons]
        refine ⟨?_, ih h2⟩
        intro x hx
        rw [List.mem_map] at hx
        obtain ⟨p, hp, rfl⟩ := hx
        rcases mem_btreeInsert k v tl p hp with hmem | rfl
        · exact h1 p.1 (List.mem_map.mpr ⟨p, hmem, rfl⟩)
        · exact hk3

theorem btreeErase_sublist (id : Nat) (l : List (Nat × Todo)) :
    (btreeErase id l).Sublist l := by
  induction l with
  | nil => simp [btreeErase]
  | cons hd tl ih =>
    obtain ⟨k', v'⟩ := hd
    by_cases h : id = k'
    · simp [btreeErase, h]
    · simpa [btreeErase, h] using ih.cons₂ (k', v')

theorem map_fst_btreeModify (k : Nat) (f : Todo → Todo) (l : List (Nat × Todo)) :
    (btreeModify k f l).map Prod.fst = l.map Prod.fst := by
  induction l with
  | nil => rfl
  | cons hd tl ih =>
    obtain ⟨k', v'⟩ := hd
    by_cases h : k = k' <;> simp [btreeModify, h, ih]

theorem pairwise_applyOp (t : Table) (op : Op)
    (h : ((t.todos.map Prod.fst)).Pairwise (· < ·)) :
    ((((applyOp t op).todos.map Prod.fst))).Pairwise (· < ·) := by
  cases op with
  | add todo =>
    simpa [applyOp, Table.add_todo] using pairwise_btreeInsert t.next_id todo t.todos h
  | removeById id =>
    have hs := (btreeErase_sublist id t.todos).map Prod.fst
    simpa [applyOp, Table.remove_todo_by_id] using List.Pairwise.sublist hs h
  | modifyById id nt =>
    simp only [applyOp, Table.modify_todo_by_id]
    cases hml : btreeLookup id t.todos with
    | none => simpa using h
    | some v => simpa [map_fst_btreeModify] using h
  | getById id f =>
    simp only [applyOp, Table.get_todo_apply]
    cases hml : btreeLookup id t.todos with
    | none => simpa using h
    | some v => simpa [map_fst_btreeModify] using h

theorem pairwise_foldl (ops : List Op) :
    ∀ t : Table, ((t.todos.map Prod.fst)).Pairwise (· < ·) →
      ((((ops.foldl applyOp t).todos.map Prod.fst))).Pairwise (· < ·) := by
  induction ops with
  | nil => intro t h; simpa using h
  | cons op rest ih => intro t h; exact ih (applyOp t op) (pairwise_applyOp t op h)

theorem pairwise_runOps (ops : List Op) :
    (((runOps ops).todos.map Prod.fst)).Pairwise (· < ·) :=
  pairwise_foldl ops Table.new (by simp [Table.new])

/-- Counterexample to C9 as stated: the rendering of a non-empty table is
not only the entry lines — a header line `"ðŸ“ Todo list:"` precedes them,
so a one-entry table renders as two lines, not one. -/
theorem c9_display_counterexample :
    Table.display { todos := [(0, Todo.new "a" "b")], next_id := 1 } =
      "ðŸ“ Todo list:\n  0. [Unfinished] a (b)\n" ∧
    ((Table.display { todos := [(0, Todo.new "a" "b")], next_id := 1 }).data.count '\n') = 2 ∧
    [(0, Todo.new "a" "b")].length = 1 := by
  refine ⟨by decide, by decide, rfl⟩

/-- C9 amended: an empty table renders as the single `"list is empty"`
message; a non-empty table renders as the header line `"ðŸ“ Todo list:"`
followed by exactly one line `<id right-aligned>. [<StatusLabel>] <title>
(<description>)` per entry, the status labels drawn from
Unfinished/Finished/Abandoned, and for every reachable table the entries
are in ascending id order. -/
theorem c9_display_spec :
    (∀ t : Table,
      (t.todos.isEmpty = true → t.display = "ðŸ“ Todo list is empty\n") ∧
      (t.todos.isEmpty = false → t.display = "ðŸ“ Todo list:\n" ++
        String.join (t.todos.map (fun p =>
          padLeft3 (natRepr p.1) ++ ". " ++
            ("[" ++ p.2.status.label ++ "] " ++ p.2.title ++ " (" ++ p.2.description ++ ")") ++
            "\n"))) ∧
      (∀ p ∈ t.todos, p.2.status.label = "Unfinished" ∨ p.2.status.label = "Finished" ∨
        p.2.status.label = "Abandoned")) ∧
    (∀ ops : List Op, (((runOps ops).todos.map Prod.fst)).Pairwise (· < ·)) := by
  constructor
  · intro t
    refine ⟨?_, ?_, ?_⟩
    · intro h
      simp [Table.display, h]
    · intro h
      simp only [Table.display, h, Bool.false_eq_true, if_false]
      rfl
    · intro p _
      obtain ⟨k, v⟩ := p
      obtain ⟨ti, de, st⟩ := v
      cases st <;> simp [TodoStatus.label]
  · exact pairwise_runOps

/-- Witness for C9 (amended): the empty table and a one-entry table. -/
theorem c9_display_witness :
    Table.display Table.new = "ðŸ“ Todo list is empty\n" ∧
    Table.display { todos := [(0, Todo.new "a" "b")], next_id := 1 } = "ðŸ“ Todo list:\n" ++
      String.join ([((0 : Nat), Todo.new "a" "b")].map (fun p =>
        padLeft3 (natRepr p.1) ++ ". " ++
          ("[" ++ p.2.status.label ++ "] " ++ p.2.title ++ " (" ++ p.2.description ++ ")") ++
          "\n")) := by
  constructor
  · exact (c9_display_spec.1 Table.new).1 rfl
  · exact (c9_display_spec.1 { todos := [(0, Todo.new "a" "b")], next_id := 1 }).2.1 rfl

end Rtodo
